import Mathlib

/-
  Verification of src/src/ui/components/searchable/Searchable.js.

  Shallow embedding conventions:
  * JS strings are `List Char`; JS string truthiness is non-emptiness.
  * The possibly-undefined boolean field `persistent` is `Option Bool`;
    it is truthy exactly when it is `some true`.
  * Fallible JS code (an access that would raise a TypeError) returns `Option`.
  * The regular expressions
      /([a-z][a-z0-9]*[!]?[:=][^\s]+)($|\s)/gi   (matchEnd = true)
      /([a-z][a-z0-9]*[!]?[:=][^\s]+)\s/gi       (matchEnd = false)
    are embedded as an explicit scanner (`tryMatch` / `scanMatches`).
    For this pattern greedy matching never needs to backtrack: the character
    classes [a-z0-9], [!], [:=] are pairwise disjoint and [^\s]+ is closed
    by either \s or $, so the one-pass greedy parse below computes exactly
    the regex match at each position, and the global scan advances past each
    match exactly like repeated RegExp exec with lastIndex.
-/

namespace Searchable

/-- JS \s on the ASCII range (space, tab, and the ASCII line/page breaks),
which is the alphabet the Searchable regexes are used on. -/
def isWs (c : Char) : Bool :=
  c == ' ' || c == '\t' || c == '\n' || c == '\r' || c == '\x0b' || c == '\x0c'

/-- The class [a-z] under the regex i flag: ASCII letters of either case. -/
def isLetter (c : Char) : Bool :=
  ('a' ≤ c && c ≤ 'z') || ('A' ≤ c && c ≤ 'Z')

/-- The class [a-z0-9] under the regex i flag. -/
def isAlnum (c : Char) : Bool :=
  isLetter c || ('0' ≤ c && c ≤ '9')

/-- A lowercase ASCII letter, for the literal class [a-z] used in the claims. -/
def isLowerAlpha (c : Char) : Bool := 'a' ≤ c && c ≤ 'z'

/-- A lowercase ASCII letter or digit, for the literal class [a-z0-9]. -/
def isLowerAlnum (c : Char) : Bool := isLowerAlpha c || ('0' ≤ c && c ≤ '9')

/-- A key literally matching [a-z][a-z0-9]*, as the claims word it. -/
def lowerKeyShape : List Char → Bool
  | [] => false
  | c :: cs => isLowerAlpha c && cs.all isLowerAlnum

/-- A Filter object (the plain `{type, key, value}` records built by matchTags,
line 281-285, plus the optional fields `persistent` and `enum` that addFilter,
clear and the Backspace handler inspect).  For enum filters only the option
values matter to the embedded code, so `enum` stores those. -/
structure Filter where
  type : String
  key : List Char
  value : List Char
  persistent : Option Bool := none
  enum : Option (List (List Char)) := none
  deriving Repr, DecidableEq

/-- The component state (lines 98-103 and 113-118). -/
structure SearchableState where
  filters : List Filter
  focusedToken : Int
  searchTerm : List Char
  hasFocus : Bool
  deriving Repr, DecidableEq

/-- The fields of a SyntheticKeyboardEvent that onKeyDown reads. -/
structure KeyEvent where
  key : String
  metaKey : Bool := false
  ctrlKey : Bool := false
  deriving Repr, DecidableEq

/-- The externally visible actions of one onKeyDown call: preventDefault,
focusing or blurring the input element, and the (debounced) invocation
`matchTags(value, matchEnd)` made by the Enter branch. -/
structure KeyEffects where
  preventDefault : Bool := false
  focusInput : Bool := false
  blurInput : Bool := false
  matchTagsCall : Option (List Char × Bool) := none
  deriving Repr, DecidableEq

/-- JS String.prototype.indexOf for a single character: the first index of
`c`, or -1 when absent. -/
def jsIndexOf (c : Char) : List Char → Int
  | [] => -1
  | x :: xs =>
    if x == c then 0
    else if jsIndexOf c xs == -1 then -1 else jsIndexOf c xs + 1

/-- JS Array.prototype.findIndex: the first index satisfying `p`, or -1. -/
def jsFindIndex (p : Filter → Bool) : List Filter → Int
  | [] => -1
  | x :: xs =>
    if p x then 0
    else if jsFindIndex p xs == -1 then -1 else jsFindIndex p xs + 1

/-- JS String.prototype.trim restricted to the \s characters above. -/
def jsTrim (l : List Char) : List Char :=
  ((l.dropWhile isWs).reverse.dropWhile isWs).reverse

/-- JS String.prototype.toUpperCase on the ASCII range. -/
def jsToUpper (l : List Char) : List Char := l.map Char.toUpper

/-- The tail of the regex after the separator: [^\s]+ followed by ($|\s) when
matchEnd (the $ alternative is tried first and consumes nothing), or by \s
otherwise.  `pre` is the part of the match already consumed. -/
def matchVal (matchEnd : Bool) (pre r : List Char) : Option (List Char) :=
  let v := r.takeWhile (fun c => !(isWs c))
  if v.isEmpty then none
  else
    match r.dropWhile (fun c => !(isWs c)) with
    | [] => if matchEnd then some (pre ++ v) else none
    | w :: _rest => if isWs w then some (pre ++ v ++ [w]) else none

/-- The regex match attempted at one position of the subject string:
[a-z][a-z0-9]*[!]?[:=] then matchVal.  Returns the full matched string
(including the trailing whitespace character when one is consumed). -/
def tryMatch (matchEnd : Bool) : List Char → Option (List Char)
  | [] => none
  | c :: rest =>
    if isLetter c then
      match rest.dropWhile isAlnum with
      | [] => none
      | d :: r3 =>
        if d == '!' then
          match r3 with
          | [] => none
          | sep :: r4 =>
            if sep == ':' || sep == '=' then
              matchVal matchEnd (c :: (rest.takeWhile isAlnum ++ ['!', sep])) r4
            else none
        else if d == ':' || d == '=' then
          matchVal matchEnd (c :: (rest.takeWhile isAlnum ++ [d])) r3
        else none
    else none

/-- The global scan of String.prototype.match with the g flag: try the
pattern at each position, and continue after the end of each match.  The
fuel argument (always initialised to the string length, which bounds the
number of steps) only establishes termination. -/
def scanFuel (matchEnd : Bool) : Nat → List Char → List (List Char)
  | 0, _ => []
  | _ + 1, [] => []
  | fuel + 1, c :: rest =>
    match tryMatch matchEnd (c :: rest) with
    | some m => m :: scanFuel matchEnd fuel ((c :: rest).drop m.length)
    | none => scanFuel matchEnd fuel rest

/-- All matches of the filter pattern in a search term, in order:
`searchTerm.match(filterPattern)` at lines 260-263. -/
def scanMatches (matchEnd : Bool) (s : List Char) : List (List Char) :=
  scanFuel matchEnd s.length s

/-- Lines 266-285: turn one matched string into the `{type, key, value}`
record handed to addFilter. -/
def parseFilter (filter : List Char) : Filter :=
  let separator := if jsIndexOf ':' filter > jsIndexOf '=' filter then ':' else '='
  let parts := filter.splitOn separator
  let key0 := parts.headD []
  let value0 := jsTrim (List.intercalate [separator] parts.tail)
  let step1 : String × List Char :=
    if jsIndexOf '!' value0 == 0 then ("exclude", value0.drop 1) else ("include", value0)
  let step2 : String × List Char :=
    if jsIndexOf '!' key0 == (key0.length : Int) - 1 then ("exclude", key0.dropLast)
    else (step1.1, key0)
  { type := step2.1, key := step2.2, value := step1.2 }

/-- matchTags (lines 259-290): the list of filters passed to addFilter, in
call order, for a given search term and matchEnd flag. -/
def matchTags (matchEnd : Bool) (searchTerm : List Char) : List Filter :=
  (scanMatches matchEnd searchTerm).map parseFilter

/-- getTableKey (lines 203-216).  `this.props.tableKey` is truthy exactly
when non-empty; `this.props.columns` is an object (truthy whenever present),
and its keys are modelled as the list `cols`. -/
def getTableKey (tableKey : List Char) (columns : Option (List (List Char))) :
    Option (List Char) :=
  if tableKey != [] then some tableKey
  else
    match columns with
    | some cols =>
      some (("TABLE_COLUMNS_").toList ++ jsToUpper (List.intercalate ("_").toList cols))
    | none => none

/-- getPersistKey (line 372). -/
def getPersistKey (tableKey : List Char) (columns : Option (List (List Char))) :
    List Char :=
  ("SEARCHABLE_STORAGE_KEY_").toList ++ ((getTableKey tableKey columns).getD [])

/-- The localStorage write of componentDidUpdate (lines 165-180): performed
only when getTableKey() is truthy and the state changed (the reference
inequality test on prevState is abstracted as the boolean `changed`).
Returns the key written together with the persisted searchTerm and filters,
or none when no write occurs. -/
def componentDidUpdatePersist (tableKey : List Char)
    (columns : Option (List (List Char))) (changed : Bool)
    (st : SearchableState) : Option (List Char × List Char × List Filter) :=
  match getTableKey tableKey columns with
  | some _ =>
    if changed then some (getPersistKey tableKey columns, st.searchTerm, st.filters)
    else none
  | none => none

/-- hasFocus (lines 360-362). -/
def hasFocusState (st : SearchableState) : Bool :=
  (st.focusedToken != -1) || st.hasFocus

/-- The ctrlOrCmd helper of onKeyDown (lines 219-221). -/
def ctrlOrCmd (platform : String) (e : KeyEvent) : Bool :=
  (e.metaKey && platform == "darwin") || (e.ctrlKey && platform != "darwin")

/-- `filters.filter((_, i) => i !== index)` of removeFilter (line 326):
Array.prototype.filter with the index argument, `i` being the position of
the element being tested. -/
def removeIndexAux (l : List Filter) (i index : Int) : List Filter :=
  match l with
  | [] => []
  | x :: xs =>
    if i != index then x :: removeIndexAux xs (i + 1) index
    else removeIndexAux xs (i + 1) index

/-- removeFilter (lines 325-333); the setState callback's focusing of the
input is reported by onKeyDown as an effect. -/
def removeFilter (st : SearchableState) (index : Int) : SearchableState :=
  { st with filters := removeIndexAux st.filters 0 index, focusedToken := -1 }

/-- addFilter (lines 296-323).  When a filter with the same key exists, the
code copies the list and, when both the default filter at that index and the
existing one are enum filters, refreshes the existing filter's enum options;
the early return skips the focusedToken reset.  Otherwise persistent filters
are prepended and other filters appended. -/
def addFilter (defaultFilters : List Filter) (st : SearchableState)
    (filter : Filter) : SearchableState :=
  let filterIndex := jsFindIndex (fun f => f.key == filter.key) st.filters
  if filterIndex > -1 then
    let filters :=
      match defaultFilters.get? filterIndex.toNat, st.filters.get? filterIndex.toNat with
      | some defaultFilter, some existing =>
        if defaultFilter.type == "enum" && existing.type == "enum" then
          st.filters.set filterIndex.toNat { existing with enum := defaultFilter.enum }
        else st.filters
      | _, _ => st.filters
    { st with filters := filters }
  else
    if filter.persistent == some true then
      { st with filters := filter :: st.filters, focusedToken := -1 }
    else
      { st with filters := st.filters ++ [filter], focusedToken := -1 }

/-- clear (lines 364-370). -/
def clear (st : SearchableState) : SearchableState :=
  { st with
    filters := st.filters.filter (fun f => f.persistent != none && f.persistent == some true),
    searchTerm := [] }

/-- onKeyDown (lines 218-252).  `inputRef` tells whether `this._inputRef` is
attached, `inputValue` is the input element's current text.  The result is
none exactly when the handler would throw (the `.persistent` read on an
out-of-range element access). -/
def onKeyDown (platform : String) (inputRef : Bool) (inputValue : List Char)
    (st : SearchableState) (e : KeyEvent) : Option (SearchableState × KeyEffects) :=
  if e.key == "f" && ctrlOrCmd platform e && inputRef then
    some (st, { preventDefault := true, focusInput := true })
  else if e.key == "Escape" && inputRef then
    some ({ st with searchTerm := [] }, { blurInput := true })
  else if e.key == "Backspace" && hasFocusState st then
    if st.focusedToken == -1 && st.searchTerm == [] && inputRef then
      match st.filters.get? (st.filters.length - 1) with
      | none => none
      | some lastFilter =>
        if !(lastFilter.persistent == some true) then
          some ({ st with focusedToken := (st.filters.length : Int) - 1 },
                { blurInput := true })
        else
          some (removeFilter st st.focusedToken, { focusInput := inputRef })
    else
      some (removeFilter st st.focusedToken, { focusInput := inputRef })
  else if e.key == "Delete" && hasFocusState st && st.focusedToken > -1 then
    some (removeFilter st st.focusedToken, { focusInput := inputRef })
  else if e.key == "Enter" && hasFocusState st && inputRef then
    some (st, { matchTagsCall := some (inputValue, true) })
  else
    some (st, {})

/-! Helper lemmas about the embedded operations. -/

lemma removeIndexAux_high (l : List Filter) : ∀ n j : Int, j < n → removeIndexAux l n j = l := by
  induction l with
  | nil => intro n j _; rfl
  | cons x xs ih =>
    intro n j h
    have hb : (n != j) = true := by
      simp only [bne_iff_ne, ne_eq]
      omega
    simp only [removeIndexAux, hb, if_true]
    rw [ih (n + 1) j (by omega)]

lemma removeIndexAux_shift : ∀ (i : Nat) (l : List Filter) (n : Int),
    removeIndexAux l n (n + (i : Int)) = l.take i ++ l.drop (i + 1) := by
  intro i
  induction i with
  | zero =>
    intro l n
    cases l with
    | nil => rfl
    | cons x xs =>
      have hb : (n != n + ((0 : Nat) : Int)) = false := by simp
      simp only [removeIndexAux, hb, Bool.false_eq_true, if_false]
      rw [removeIndexAux_high xs (n + 1) (n + ((0 : Nat) : Int)) (by omega)]
      simp
  | succ k ih =>
    intro l n
    cases l with
    | nil => simp [removeIndexAux]
    | cons x xs =>
      have hb : (n != n + (((k + 1) : Nat) : Int)) = true := by
        simp only [bne_iff_ne, ne_eq]
        omega
      simp only [removeIndexAux, hb, if_true]
      have harith : n + (((k + 1) : Nat) : Int) = (n + 1) + (k : Int) := by push_cast; ring
      rw [harith, ih xs (n + 1)]
      simp

lemma removeFilter_nat (st : SearchableState) (i : Nat) :
    removeFilter st (i : Int) =
      { st with filters := st.filters.take i ++ st.filters.drop (i + 1), focusedToken := -1 } := by
  unfold removeFilter
  have h0 : (i : Int) = 0 + (i : Int) := by omega
  rw [h0, removeIndexAux_shift i st.filters 0]

lemma jsFindIndex_ge (p : Filter → Bool) : ∀ l, -1 ≤ jsFindIndex p l := by
  intro l
  induction l with
  | nil => simp [jsFindIndex]
  | cons x xs ih =>
    simp only [jsFindIndex]
    split
    · omega
    · split
      · omega
      · omega

lemma jsFindIndex_neg_iff (p : Filter → Bool) (l : List Filter) :
    jsFindIndex p l = -1 ↔ ∀ x ∈ l, p x = false := by
  induction l with
  | nil => simp [jsFindIndex]
  | cons x xs ih =>
    simp only [jsFindIndex, List.mem_cons]
    split
    · rename_i hp
      constructor
      · intro h
        exact absurd h (by omega)
      · intro h
        rw [h x (Or.inl rfl)] at hp
        exact absurd hp (by simp)
    · rename_i hp
      have hpx : p x = false := by
        cases hx : p x
        · rfl
        · exact absurd hx hp
      split
      · rename_i he
        have he' : jsFindIndex p xs = -1 := by
          rw [beq_iff_eq] at he
          exact he
        constructor
        · intro _
          intro y hy
          rcases hy with rfl | hy
          · exact hpx
          · exact (ih.mp he') y hy
        · intro _
          rfl
      · rename_i he
        have he' : jsFindIndex p xs ≠ -1 := by
          intro hc
          rw [hc] at he
          simp at he
        have hge := jsFindIndex_ge p xs
        constructor
        · intro h
          exact absurd h (by omega)
        · intro h
          have : jsFindIndex p xs = -1 := ih.mpr (fun y hy => h y (Or.inr hy))
          exact absurd this he'

lemma map_key_set : ∀ (l : List Filter) (n : Nat) (x e : Filter),
    l.get? n = some x → e.key = x.key →
    (l.set n e).map Filter.key = l.map Filter.key := by
  intro l
  induction l with
  | nil => intro n x e h _; simp at h
  | cons y ys ih =>
    intro n x e h hk
    cases n with
    | zero =>
      simp only [List.get?] at h
      cases h
      simp [List.set, hk]
    | succ m =>
      simp only [List.get?] at h
      show Filter.key y :: (ys.set m e).map Filter.key = Filter.key y :: ys.map Filter.key
      rw [ih m x e h hk]

/-! Helper lemmas about the regex scanner. -/

lemma isLetter_of_lower (c : Char) (h : isLowerAlpha c = true) : isLetter c = true := by
  simp only [isLetter, Bool.or_eq_true]
  left
  exact h

lemma isAlnum_of_lower (c : Char) (h : isLowerAlnum c = true) : isAlnum c = true := by
  simp only [isLowerAlnum, Bool.or_eq_true] at h
  simp only [isAlnum, Bool.or_eq_true]
  rcases h with h | h
  · left
    exact isLetter_of_lower c h
  · right
    exact h

lemma not_ws_of_alnum (c : Char) (h : isAlnum c = true) : isWs c = false := by
  cases hw : isWs c
  · rfl
  · exfalso
    have h6 : c = ' ' ∨ c = '\t' ∨ c = '\n' ∨ c = '\r' ∨ c = '\x0b' ∨ c = '\x0c' := by
      simpa only [isWs, Bool.or_eq_true, beq_iff_eq, or_assoc] using hw
    rcases h6 with hc | hc | hc | hc | hc | hc <;> subst hc <;> exact absurd h (by decide)

lemma not_ws_of_letter (c : Char) (h : isLetter c = true) : isWs c = false :=
  not_ws_of_alnum c (by simp only [isAlnum, Bool.or_eq_true]; left; exact h)

lemma takeWhile_middle (p : Char → Bool) :
    ∀ (xs : List Char) (y : Char) (ys : List Char),
      (∀ x ∈ xs, p x = true) → p y = false →
      (xs ++ y :: ys).takeWhile p = xs ∧ (xs ++ y :: ys).dropWhile p = y :: ys := by
  intro xs
  induction xs with
  | nil =>
    intro y ys _ h2
    simp [List.takeWhile_cons, List.dropWhile_cons, h2]
  | cons x xs ih =>
    intro y ys h1 h2
    have hx : p x = true := h1 x (by simp)
    have hrest := ih y ys (fun z hz => h1 z (by simp [hz])) h2
    simp [List.takeWhile_cons, List.dropWhile_cons, hx, hrest.1, hrest.2]

lemma takeWhile_all_true (p : Char → Bool) :
    ∀ (xs : List Char), (∀ x ∈ xs, p x = true) →
      xs.takeWhile p = xs ∧ xs.dropWhile p = [] := by
  intro xs
  induction xs with
  | nil => intro _; exact ⟨rfl, rfl⟩
  | cons x xs ih =>
    intro h1
    have hx : p x = true := h1 x (by simp)
    have hrest := ih (fun z hz => h1 z (by simp [hz]))
    simp [List.takeWhile_cons, List.dropWhile_cons, hx, hrest.1, hrest.2]

lemma dropWhile_all_false (p : Char → Bool) (l : List Char)
    (h : ∀ x ∈ l, p x = false) : l.dropWhile p = l := by
  cases l with
  | nil => rfl
  | cons x xs =>
    have hx : p x = false := h x (by simp)
    simp [List.dropWhile_cons, hx]

lemma jsTrim_val (v : List Char) (w : Char) (hv : v ≠ [])
    (hvs : ∀ x ∈ v, isWs x = false) (hw : isWs w = true) : jsTrim (v ++ [w]) = v := by
  unfold jsTrim
  have h1 : (v ++ [w]).dropWhile isWs = v ++ [w] := by
    cases v with
    | nil => exact absurd rfl hv
    | cons x xs =>
      have hx : isWs x = false := hvs x (by simp)
      simp [List.dropWhile_cons, hx]
  rw [h1]
  have h2 : (v ++ [w]).reverse = w :: v.reverse := by simp
  rw [h2]
  have h3 : (w :: v.reverse).dropWhile isWs = v.reverse.dropWhile isWs := by
    simp [List.dropWhile_cons, hw]
  rw [h3]
  have h4 : v.reverse.dropWhile isWs = v.reverse :=
    dropWhile_all_false isWs v.reverse (fun x hx => hvs x (by simpa using hx))
  rw [h4]
  simp

lemma matchVal_exact_ws (me : Bool) (pre v : List Char) (w : Char) (z2 : List Char)
    (hv : v ≠ []) (hvs : ∀ x ∈ v, isWs x = false) (hw : isWs w = true) :
    matchVal me pre (v ++ w :: z2) = some (pre ++ v ++ [w]) := by
  have hsplit := takeWhile_middle (fun c => !(isWs c)) v w z2
    (fun x hx => by simp [hvs x hx]) (by simp [hw])
  unfold matchVal
  rw [hsplit.1, hsplit.2]
  have hne : v.isEmpty = false := by
    cases v
    · exact absurd rfl hv
    · rfl
  simp [hne, hw]

lemma matchVal_exact_end (pre v : List Char) (hv : v ≠ [])
    (hvs : ∀ x ∈ v, isWs x = false) :
    matchVal true pre v = some (pre ++ v) := by
  have hsplit := takeWhile_all_true (fun c => !(isWs c)) v
    (fun x hx => by simp [hvs x hx])
  unfold matchVal
  rw [hsplit.1, hsplit.2]
  have hne : v.isEmpty = false := by
    cases v
    · exact absurd rfl hv
    · rfl
  simp [hne]

lemma matchVal_parts (me : Bool) (pre r m : List Char)
    (h : matchVal me pre r = some m) :
    ∃ v z, r = v ++ z ∧ v ≠ [] ∧ (∀ x ∈ v, isWs x = false) ∧
      ((z = [] ∧ me = true ∧ m = pre ++ v) ∨
       (∃ w z2, z = w :: z2 ∧ isWs w = true ∧ m = pre ++ v ++ [w])) := by
  unfold matchVal at h
  refine ⟨r.takeWhile (fun c => !(isWs c)), r.dropWhile (fun c => !(isWs c)),
    (List.takeWhile_append_dropWhile (fun c => !(isWs c)) r).symm, ?_, ?_, ?_⟩
  · intro hc
    rw [hc] at h
    simp at h
  · intro x hx
    have := List.mem_takeWhile_imp hx
    simpa using this
  · by_cases hne : (r.takeWhile (fun c => !(isWs c))).isEmpty = true
    · rw [if_pos hne] at h
      exact absurd h (by simp)
    · rw [if_neg hne] at h
      cases hd : r.dropWhile (fun c => !(isWs c)) with
      | nil =>
        rw [hd] at h
        left
        cases me
        · exact absurd h (by simp)
        · simp only [if_true] at h
          cases h
          exact ⟨rfl, rfl, rfl⟩
      | cons w z2 =>
        rw [hd] at h
        dsimp only at h
        right
        cases hw : isWs w
        · rw [hw] at h
          exact absurd h (by simp)
        · rw [hw] at h
          simp only [if_true] at h
          cases h
          exact ⟨w, z2, rfl, hw, rfl⟩

lemma tryMatch_token (me : Bool) (c : Char) (ks : List Char) (bang : Bool) (sep : Char)
    (v r5 : List Char)
    (hc : isLetter c = true) (hks : ∀ x ∈ ks, isAlnum x = true)
    (hsep : sep = ':' ∨ sep = '=')
    (hv : v ≠ []) (hvs : ∀ x ∈ v, isWs x = false)
    (htail : (∃ w z2, r5 = w :: z2 ∧ isWs w = true) ∨ (r5 = [] ∧ me = true)) :
    tryMatch me (c :: (ks ++ ((if bang then ['!', sep] else [sep]) ++ (v ++ r5)))) =
      some (c :: (ks ++ ((if bang then ['!', sep] else [sep]) ++ (v ++ r5.take 1)))) := by
  have hval : ∀ pre : List Char, matchVal me pre (v ++ r5) = some (pre ++ (v ++ r5.take 1)) := by
    intro pre
    rcases htail with ⟨w, z2, rfl, hw⟩ | ⟨rfl, rfl⟩
    · rw [matchVal_exact_ws me pre v w z2 hv hvs hw]
      simp
    · rw [List.append_nil]
      rw [matchVal_exact_end pre v hv hvs]
      simp
  have hb2 : ((sep == ':') || (sep == '=')) = true := by
    rcases hsep with rfl | rfl <;> decide
  cases bang
  · have halnum : isAlnum sep = false := by rcases hsep with rfl | rfl <;> decide
    have hb1 : (sep == '!') = false := by rcases hsep with rfl | rfl <;> decide
    simp only [Bool.false_eq_true, if_false, List.singleton_append]
    have hsplit := takeWhile_middle isAlnum ks sep (v ++ r5) hks halnum
    rw [tryMatch]
    rw [if_pos hc]
    rw [hsplit.2]
    dsimp only
    rw [hb1]
    simp only [Bool.false_eq_true, if_false]
    rw [hb2]
    simp only [if_true]
    rw [hsplit.1]
    rw [hval (c :: (ks ++ [sep]))]
    simp
  · have halnum : isAlnum '!' = false := by decide
    have hb1 : (('!' : Char) == '!') = true := by decide
    simp only [if_true, List.cons_append, List.singleton_append, List.nil_append]
    have hsplit := takeWhile_middle isAlnum ks '!' (sep :: (v ++ r5)) hks halnum
    rw [tryMatch]
    rw [if_pos hc]
    rw [hsplit.2]
    dsimp only
    rw [hb1]
    simp only [if_true]
    rw [hb2]
    simp only [if_true]
    rw [hsplit.1]
    rw [hval (c :: (ks ++ ['!', sep]))]
    simp

lemma parts_assemble (me : Bool) (pre r m s : List Char)
    (hs : s = pre ++ r) (hpre_ne : pre ≠ []) (hpre_ws : ∀ x ∈ pre, isWs x = false)
    (h : matchVal me pre r = some m) :
    m ≠ [] ∧ (∃ r2, s = m ++ r2) ∧ (∀ x ∈ m.dropLast, isWs x = false) ∧
      (me = false → ∃ m2 w, m = m2 ++ [w] ∧ isWs w = true) := by
  obtain ⟨v, z, rfl, hvne, hvs, hcase⟩ := matchVal_parts me pre r m h
  rcases hcase with ⟨rfl, hme, rfl⟩ | ⟨w, z2, rfl, hw, rfl⟩
  · refine ⟨?_, ⟨[], by simp [hs]⟩, ?_, ?_⟩
    · simp [hpre_ne]
    · intro x hx
      have hx2 : x ∈ pre ++ v := by
        rw [List.dropLast_eq_take] at hx
        exact List.take_subset _ _ hx
      rcases List.mem_append.mp hx2 with hx3 | hx3
      · exact hpre_ws x hx3
      · exact hvs x hx3
    · intro hf
      rw [hme] at hf
      cases hf
  · refine ⟨by simp, ⟨z2, by simp [hs]⟩, ?_, fun _ => ⟨pre ++ v, w, rfl, hw⟩⟩
    intro x hx
    rw [List.dropLast_concat] at hx
    rcases List.mem_append.mp hx with hx3 | hx3
    · exact hpre_ws x hx3
    · exact hvs x hx3

lemma tryMatch_parts (me : Bool) (s m : List Char) (h : tryMatch me s = some m) :
    m ≠ [] ∧ (∃ r, s = m ++ r) ∧ (∀ x ∈ m.dropLast, isWs x = false) ∧
      (me = false → ∃ m2 w, m = m2 ++ [w] ∧ isWs w = true) := by
  cases s with
  | nil => exact absurd h (by simp [tryMatch])
  | cons c rest =>
    rw [tryMatch] at h
    by_cases hc : isLetter c = true
    case neg => rw [if_neg hc] at h; exact absurd h (by simp)
    rw [if_pos hc] at h
    cases hd : rest.dropWhile isAlnum with
    | nil => rw [hd] at h; exact absurd h (by simp)
    | cons d r3 =>
      rw [hd] at h
      dsimp only at h
      have hrest : rest = rest.takeWhile isAlnum ++ (d :: r3) := by
        conv_lhs => rw [← List.takeWhile_append_dropWhile isAlnum rest]
        rw [hd]
      have htk : ∀ x ∈ rest.takeWhile isAlnum, isWs x = false := by
        intro x hx
        exact not_ws_of_alnum x (List.mem_takeWhile_imp hx)
      by_cases hbang : (d == '!') = true
      · rw [if_pos hbang] at h
        have hd2 : d = '!' := by simpa using hbang
        cases r3 with
        | nil => exact absurd h (by simp)
        | cons sep r4 =>
          dsimp only at h
          by_cases hsep : ((sep == ':') || (sep == '=')) = true
          case neg => rw [if_neg hsep] at h; exact absurd h (by simp)
          rw [if_pos hsep] at h
          have hsep2 : sep = ':' ∨ sep = '=' := by simpa using hsep
          apply parts_assemble me (c :: (rest.takeWhile isAlnum ++ ['!', sep])) r4 m
            (c :: rest) ?_ (by simp) ?_ h
          · conv_lhs => rw [hrest, hd2]
            simp
          · intro x hx
            rcases List.mem_cons.mp hx with rfl | hx2
            · exact not_ws_of_letter x hc
            · rcases List.mem_append.mp hx2 with hx3 | hx3
              · exact htk x hx3
              · rcases List.mem_cons.mp hx3 with rfl | hx4
                · decide
                · rcases List.mem_cons.mp hx4 with rfl | hx5
                  · rcases hsep2 with rfl | rfl <;> decide
                  · cases hx5
      · rw [if_neg hbang] at h
        by_cases hsep : ((d == ':') || (d == '=')) = true
        case neg => rw [if_neg hsep] at h; exact absurd h (by simp)
        rw [if_pos hsep] at h
        have hsep2 : d = ':' ∨ d = '=' := by simpa using hsep
        apply parts_assemble me (c :: (rest.takeWhile isAlnum ++ [d])) r3 m
          (c :: rest) ?_ (by simp) ?_ h
        · conv_lhs => rw [hrest]
          simp
        · intro x hx
          rcases List.mem_cons.mp hx with rfl | hx2
          · exact not_ws_of_letter x hc
          · rcases List.mem_append.mp hx2 with hx3 | hx3
            · exact htk x hx3
            · rcases List.mem_cons.mp hx3 with rfl | hx4
              · rcases hsep2 with rfl | rfl <;> decide
              · cases hx4

lemma tryMatch_length_pos (me : Bool) (s m : List Char) (h : tryMatch me s = some m) :
    0 < m.length := by
  have h1 := (tryMatch_parts me s m h).1
  cases m
  · exact absurd rfl h1
  · simp

lemma scanFuel_congr (me : Bool) : ∀ (f1 f2 : Nat) (s : List Char),
    s.length ≤ f1 → s.length ≤ f2 → scanFuel me f1 s = scanFuel me f2 s := by
  intro f1
  induction f1 with
  | zero =>
    intro f2 s h1 _
    have hs : s = [] := List.length_eq_zero.mp (Nat.le_zero.mp h1)
    subst hs
    cases f2 <;> rfl
  | succ k ih =>
    intro f2 s h1 h2
    cases s with
    | nil => cases f2 <;> rfl
    | cons c rest =>
      cases f2 with
      | zero =>
        exfalso
        simp at h2
      | succ k2 =>
        show scanFuel me (k + 1) (c :: rest) = scanFuel me (k2 + 1) (c :: rest)
        cases htm : tryMatch me (c :: rest) with
        | some m =>
          simp only [scanFuel, htm]
          have hm := tryMatch_length_pos me _ m htm
          have hlen1 : ((c :: rest).drop m.length).length ≤ k := by
            simp only [List.length_drop, List.length_cons]
            simp only [List.length_cons] at h1
            omega
          have hlen2 : ((c :: rest).drop m.length).length ≤ k2 := by
            simp only [List.length_drop, List.length_cons]
            simp only [List.length_cons] at h2
            omega
          rw [ih k2 _ hlen1 hlen2]
        | none =>
          simp only [scanFuel, htm]
          exact ih k2 rest (by simp at h1; omega) (by simp at h2; omega)

lemma scanMatches_cons_some (me : Bool) (c : Char) (rest m : List Char)
    (h : tryMatch me (c :: rest) = some m) :
    scanMatches me (c :: rest) = m :: scanMatches me ((c :: rest).drop m.length) := by
  show scanFuel me (rest.length + 1) (c :: rest) = _
  simp only [scanFuel, h]
  congr 1
  apply scanFuel_congr
  · have hm := tryMatch_length_pos me _ m h
    simp only [List.length_drop, List.length_cons]
    omega
  · exact Nat.le_refl _

lemma scanMatches_cons_none (me : Bool) (c : Char) (rest : List Char)
    (h : tryMatch me (c :: rest) = none) :
    scanMatches me (c :: rest) = scanMatches me rest := by
  show scanFuel me (rest.length + 1) (c :: rest) = _
  simp only [scanFuel, h]
  rfl

lemma scanFuel_from_tryMatch (me : Bool) : ∀ (fuel : Nat) (s m : List Char),
    m ∈ scanFuel me fuel s → ∃ s2, tryMatch me s2 = some m := by
  intro fuel
  induction fuel with
  | zero => intro s m hm; simp [scanFuel] at hm
  | succ k ih =>
    intro s m hm
    cases s with
    | nil => simp [scanFuel] at hm
    | cons c rest =>
      simp only [scanFuel] at hm
      cases htm : tryMatch me (c :: rest) with
      | some m1 =>
        rw [htm] at hm
        rcases List.mem_cons.mp hm with rfl | hm2
        · exact ⟨c :: rest, htm⟩
        · exact ih _ m hm2
      | none =>
        rw [htm] at hm
        exact ih rest m hm

lemma good_tail (x : Char) (xs a2 : List Char) (w : Char) (hx : x :: xs = a2 ++ [w])
    (hw : isWs w = true) : xs = [] ∨ ∃ a3 w2, xs = a3 ++ [w2] ∧ isWs w2 = true := by
  cases a2 with
  | nil =>
    left
    have := hx
    simp at this
    exact this.2
  | cons y ys =>
    right
    refine ⟨ys, w, ?_, hw⟩
    have := hx
    simp at this
    exact this.2

lemma concat_suffix_last (m1 c2 a2 : List Char) (w : Char) (hne : c2 ≠ [])
    (heq : m1 ++ c2 = a2 ++ [w]) : ∃ a3, c2 = a3 ++ [w] := by
  rcases List.eq_nil_or_concat c2 with rfl | ⟨l2, b, hb⟩
  · exact absurd rfl hne
  · subst hb
    simp only [List.concat_eq_append] at heq ⊢
    refine ⟨l2, ?_⟩
    have h1 : (m1 ++ (l2 ++ [b])).getLast? = some b := by
      rw [← List.append_assoc]
      exact List.getLast?_concat _
    rw [heq, List.getLast?_concat] at h1
    cases h1
    rfl

/-- A successful pattern match at the start of `tb` survives the global scan
of `a ++ tb` whenever `a` is empty or ends in a whitespace character: every
earlier match ends no later than the start of `tb`, because a match contains
no whitespace before its final character. -/
lemma scan_token_aux (me : Bool) : ∀ (n : Nat) (a tb m : List Char),
    a.length ≤ n →
    (a = [] ∨ ∃ a2 w, a = a2 ++ [w] ∧ isWs w = true) →
    tryMatch me tb = some m →
    m ∈ scanMatches me (a ++ tb) := by
  intro n
  induction n with
  | zero =>
    intro a tb m hn ha hm
    have ha0 : a = [] := List.length_eq_zero.mp (Nat.le_zero.mp hn)
    subst ha0
    cases tb with
    | nil => exact absurd hm (by simp [tryMatch])
    | cons c rest =>
      rw [List.nil_append, scanMatches_cons_some me c rest m hm]
      exact List.mem_cons_self _ _
  | succ k ih =>
    intro a tb m hn ha hm
    rcases ha with rfl | ⟨a2, w, rfl, hw⟩
    · cases tb with
      | nil => exact absurd hm (by simp [tryMatch])
      | cons c rest =>
        rw [List.nil_append, scanMatches_cons_some me c rest m hm]
        exact List.mem_cons_self _ _
    · cases hca : (a2 ++ [w]) with
      | nil => simp at hca
      | cons x xs =>
        rw [hca] at hn
        have hgood := good_tail x xs a2 w hca.symm hw
        cases htm : tryMatch me (x :: (xs ++ tb)) with
        | none =>
          rw [List.cons_append, scanMatches_cons_none me x (xs ++ tb) htm]
          apply ih xs tb m ?_ hgood hm
          simp only [List.length_cons] at hn
          omega
        | some m1 =>
          rw [List.cons_append, scanMatches_cons_some me x (xs ++ tb) m1 htm]
          apply List.mem_cons_of_mem
          obtain ⟨hm1ne, ⟨r, hr⟩, hnws, _⟩ := tryMatch_parts me _ m1 htm
          have hsplit : x :: xs ++ tb = m1 ++ r := by
            rw [List.cons_append, hr]
          rcases List.append_eq_append_iff.mp hsplit with ⟨a3, hxa, htb⟩ | ⟨c3, hxa, hr2⟩
          · -- m1 = (x :: xs) ++ a3 : the match would swallow part of tb or end at it
            cases a3 with
            | nil =>
              -- m1 is exactly the prefix a = x :: xs; the scan continues at tb
              have hm1 : m1 = x :: xs := by simp [hxa]
              have hdrop : (x :: (xs ++ tb)).drop m1.length = tb := by
                have : x :: (xs ++ tb) = m1 ++ tb := by
                  rw [hm1]
                  simp
                rw [this, List.drop_left]
              rw [hdrop]
              apply ih [] tb m (by simp) (Or.inl rfl) hm
            | cons y ys =>
              -- impossible: w would be a non-final whitespace character of m1
              exfalso
              have hwin : w ∈ m1.dropLast := by
                rw [hxa]
                rw [← hca]
                have hy : (a2 ++ [w]) ++ y :: ys = a2 ++ [w] ++ y :: ys := rfl
                rw [List.dropLast_append_of_ne_nil _ (by simp)]
                refine List.mem_append.mpr (Or.inl ?_)
                exact List.mem_append.mpr (Or.inr (by simp))
              have := hnws w hwin
              rw [hw] at this
              cases this
          · -- a = m1 ++ c3 : the match stays inside the prefix
            have hdrop : (x :: (xs ++ tb)).drop m1.length = c3 ++ tb := by
              have h2 : x :: (xs ++ tb) = m1 ++ (c3 ++ tb) := by
                rw [← List.cons_append, hxa]
                simp
              rw [h2, List.drop_left]
            rw [hdrop]
            cases hc3 : c3 with
            | nil =>
              rw [List.nil_append]
              apply ih [] tb m (by simp) (Or.inl rfl) hm
            | cons z zs =>
              have hc3w : ∃ a3, c3 = a3 ++ [w] := by
                apply concat_suffix_last m1 c3 a2 w (by rw [hc3]; simp)
                rw [← hxa, hca]
            -- wait hxa : x :: xs = m1 ++ c3 and x :: xs = a2 ++ [w]
              obtain ⟨a3, ha3⟩ := hc3w
              rw [← hc3]
              apply ih c3 tb m ?_ (Or.inr ⟨a3, w, ha3, hw⟩) hm
              have hlen : m1.length + c3.length = (x :: xs).length := by
                rw [hxa]
                simp
              have hm1pos : 0 < m1.length := by
                cases m1
                · exact absurd rfl hm1ne
                · simp
              simp only [List.length_cons] at hn hlen
              omega

lemma scan_token (me : Bool) (a tb m : List Char)
    (ha : a = [] ∨ ∃ a2 w, a = a2 ++ [w] ∧ isWs w = true)
    (hm : tryMatch me tb = some m) :
    m ∈ scanMatches me (a ++ tb) :=
  scan_token_aux me a.length a tb m (Nat.le_refl _) ha hm

lemma jsIndexOf_ge (c : Char) : ∀ l, -1 ≤ jsIndexOf c l := by
  intro l
  induction l with
  | nil => simp [jsIndexOf]
  | cons x xs ih =>
    simp only [jsIndexOf]
    split
    · omega
    · split
      · omega
      · omega

lemma jsIndexOf_not_mem (c : Char) : ∀ l, c ∉ l → jsIndexOf c l = -1 := by
  intro l
  induction l with
  | nil => intro _; rfl
  | cons x xs ih =>
    intro hmem
    have hx : (x == c) = false := by
      rw [beq_eq_false_iff_ne]
      intro hc
      exact hmem (by simp [hc])
    have hxs : jsIndexOf c xs = -1 := ih (fun h2 => hmem (by simp [h2]))
    simp [jsIndexOf, hx, hxs]

lemma jsIndexOf_first (c : Char) : ∀ (k rest : List Char), c ∉ k →
    jsIndexOf c (k ++ c :: rest) = (k.length : Int) := by
  intro k
  induction k with
  | nil =>
    intro rest _
    simp [jsIndexOf]
  | cons x xs ih =>
    intro rest hmem
    have hx : (x == c) = false := by
      rw [beq_eq_false_iff_ne]
      intro hc
      exact hmem (by simp [hc])
    have hxs := ih rest (fun h2 => hmem (by simp [h2]))
    have hne2 : (((xs.length : Nat) : Int) == -1) = false := by
      rw [beq_eq_false_iff_ne]
      omega
    simp only [List.cons_append, jsIndexOf, List.append_eq, hx, Bool.false_eq_true, if_false,
      hxs, hne2, List.length_cons]
    push_cast
    ring

lemma jsIndexOf_zero_head (c : Char) (l : List Char) (h : l.head? ≠ some c) :
    jsIndexOf c l ≠ 0 := by
  cases l with
  | nil => simp [jsIndexOf]
  | cons x xs =>
    have hx : (x == c) = false := by
      rw [beq_eq_false_iff_ne]
      intro hc
      exact h (by simp [hc])
    have hge := jsIndexOf_ge c xs
    simp only [jsIndexOf, hx, Bool.false_eq_true, if_false]
    split
    · omega
    · rename_i h2
      have h3 : jsIndexOf c xs ≠ -1 := by
        intro hc
        exact h2 (by rw [hc]; rfl)
      omega

lemma lowerKey_chars (k : List Char) (hk : lowerKeyShape k = true) :
    k ≠ [] ∧ ∀ x ∈ k, isLowerAlnum x = true := by
  cases k with
  | nil => exact absurd hk (by simp [lowerKeyShape])
  | cons c cs =>
    simp only [lowerKeyShape, Bool.and_eq_true, List.all_eq_true] at hk
    refine ⟨by simp, ?_⟩
    intro x hx
    rcases List.mem_cons.mp hx with rfl | hx2
    · simp only [isLowerAlnum, Bool.or_eq_true]
      left
      exact hk.1
    · exact hk.2 x hx2

lemma lowerAlnum_ne (x : Char) (h : isLowerAlnum x = true) :
    x ≠ ':' ∧ x ≠ '=' ∧ x ≠ '!' := by
  refine ⟨?_, ?_, ?_⟩ <;> rintro rfl <;> exact absurd h (by decide)

lemma splitOn_first_part (sep : Char) (k rest : List Char) (hk : sep ∉ k) :
    (k ++ sep :: rest).splitOn sep = k :: rest.splitOn sep := by
  simp only [List.splitOn]
  apply List.splitOnP_first
  · intro x hx hpx
    rw [beq_iff_eq] at hpx
    exact hk (hpx ▸ hx)
  · simp

/-- Parsing the full match of an include token key:value (trailing
whitespace included) when the value contains no '=' and does not start
with '!'. -/
lemma parseFilter_include (k v : List Char) (w : Char)
    (hk : lowerKeyShape k = true)
    (hv : v ≠ []) (hvs : ∀ x ∈ v, isWs x = false)
    (hveq : '=' ∉ v) (hvbang : v.head? ≠ some '!')
    (hw : isWs w = true) :
    parseFilter (k ++ ':' :: (v ++ [w])) =
      { type := "include", key := k, value := v } := by
  obtain ⟨hkne, hkall⟩ := lowerKey_chars k hk
  have hkcolon : ':' ∉ k := fun hx => (lowerAlnum_ne ':' (hkall ':' hx)).1 rfl
  have hkeq : '=' ∉ k := fun hx => (lowerAlnum_ne '=' (hkall '=' hx)).2.1 rfl
  have hkbang : '!' ∉ k := fun hx => (lowerAlnum_ne '!' (hkall '!' hx)).2.2 rfl
  have hwe : w ≠ '=' := by
    rintro rfl
    exact absurd hw (by decide)
  have heqnot : '=' ∉ (k ++ ':' :: (v ++ [w])) := by
    intro hin
    rcases List.mem_append.mp hin with h2 | h2
    · exact hkeq h2
    · rcases List.mem_cons.mp h2 with h3 | h3
      · exact absurd h3 (by decide)
      · rcases List.mem_append.mp h3 with h4 | h4
        · exact hveq h4
        · have h5 : '=' = w := List.mem_singleton.mp h4
          exact hwe h5.symm
  have hidx_eq : jsIndexOf '=' (k ++ ':' :: (v ++ [w])) = -1 :=
    jsIndexOf_not_mem '=' _ heqnot
  have hidx_colon : jsIndexOf ':' (k ++ ':' :: (v ++ [w])) = (k.length : Int) :=
    jsIndexOf_first ':' k _ hkcolon
  simp only [parseFilter, hidx_eq, hidx_colon]
  split
  case isFalse hcond => exact absurd (by omega : (k.length : Int) > -1) hcond
  rw [splitOn_first_part ':' k (v ++ [w]) hkcolon]
  simp only [List.headD_cons, List.tail_cons]
  rw [List.intercalate_splitOn]
  rw [jsTrim_val v w hv hvs hw]
  have hbang0 : (jsIndexOf '!' v == 0) = false := by
    rw [beq_eq_false_iff_ne]
    exact jsIndexOf_zero_head '!' v hvbang
  rw [hbang0]
  simp only [Bool.false_eq_true, if_false]
  have hkb : jsIndexOf '!' k = -1 := jsIndexOf_not_mem '!' k hkbang
  rw [hkb]
  have hklen : 1 ≤ k.length := by
    cases k
    · exact absurd rfl hkne
    · simp
  have hx : ((-1 : Int) == (k.length : Int) - 1) = false := by
    rw [beq_eq_false_iff_ne]
    omega
  rw [hx]
  simp

/-- Parsing the full match of an exclude token key!=value (trailing
whitespace included) when the value contains no ':' and does not start
with '!'. -/
lemma parseFilter_exclude (k v : List Char) (w : Char)
    (hk : lowerKeyShape k = true)
    (hv : v ≠ []) (hvs : ∀ x ∈ v, isWs x = false)
    (hvcolon : ':' ∉ v) (hvbang : v.head? ≠ some '!')
    (hw : isWs w = true) :
    parseFilter ((k ++ ['!']) ++ '=' :: (v ++ [w])) =
      { type := "exclude", key := k, value := v } := by
  obtain ⟨hkne, hkall⟩ := lowerKey_chars k hk
  have hkcolon : ':' ∉ k := fun hx => (lowerAlnum_ne ':' (hkall ':' hx)).1 rfl
  have hkeq : '=' ∉ k := fun hx => (lowerAlnum_ne '=' (hkall '=' hx)).2.1 rfl
  have hkbang : '!' ∉ k := fun hx => (lowerAlnum_ne '!' (hkall '!' hx)).2.2 rfl
  have hwc : w ≠ ':' := by
    rintro rfl
    exact absurd hw (by decide)
  have hcolnot : ':' ∉ ((k ++ ['!']) ++ '=' :: (v ++ [w])) := by
    intro hin
    rcases List.mem_append.mp hin with h2 | h2
    · rcases List.mem_append.mp h2 with h3 | h3
      · exact hkcolon h3
      · exact absurd (List.mem_singleton.mp h3) (by decide)
    · rcases List.mem_cons.mp h2 with h3 | h3
      · exact absurd h3 (by decide)
      · rcases List.mem_append.mp h3 with h4 | h4
        · exact hvcolon h4
        · have h5 : ':' = w := List.mem_singleton.mp h4
          exact hwc h5.symm
  have heqk : '=' ∉ (k ++ ['!']) := by
    simp only [List.mem_append, List.mem_singleton, not_or]
    exact ⟨hkeq, by decide⟩
  have hidx_colon : jsIndexOf ':' ((k ++ ['!']) ++ '=' :: (v ++ [w])) = -1 :=
    jsIndexOf_not_mem ':' _ hcolnot
  have hidx_eq : jsIndexOf '=' ((k ++ ['!']) ++ '=' :: (v ++ [w])) =
      ((k ++ ['!']).length : Int) :=
    jsIndexOf_first '=' (k ++ ['!']) _ heqk
  simp only [parseFilter, hidx_colon, hidx_eq]
  split
  case isTrue hcond => exact absurd hcond (by omega)
  rw [splitOn_first_part '=' (k ++ ['!']) (v ++ [w]) heqk]
  simp only [List.headD_cons, List.tail_cons]
  rw [List.intercalate_splitOn]
  rw [jsTrim_val v w hv hvs hw]
  have hbang0 : (jsIndexOf '!' v == 0) = false := by
    rw [beq_eq_false_iff_ne]
    exact jsIndexOf_zero_head '!' v hvbang
  rw [hbang0]
  simp only [Bool.false_eq_true, if_false]
  have hkb : jsIndexOf '!' (k ++ ['!']) = (k.length : Int) := by
    have h2 : k ++ ['!'] = k ++ '!' :: [] := rfl
    rw [h2]
    exact jsIndexOf_first '!' k [] hkbang
  rw [hkb]
  have hx : ((k.length : Int) == ((k ++ ['!']).length : Int) - 1) = true := by
    rw [beq_iff_eq]
    simp
  rw [hx]
  simp only [if_true]
  rw [List.dropLast_concat]

/-! Claim theorems. -/

/-- Claim C1 (amended): for every search string containing a token key:value
(key matching [a-z][a-z0-9]*, value non-whitespace, containing no '=' and
not beginning with '!') followed by whitespace, matchTags parses that token
into a filter with type include, that key and that value, and passes it to
addFilter. -/
theorem matchTags_include_token (me : Bool) (a b k v : List Char) (w : Char)
    (ha : a = [] ∨ ∃ a2 w2, a = a2 ++ [w2] ∧ isWs w2 = true)
    (hk : lowerKeyShape k = true)
    (hv : v ≠ []) (hvs : ∀ x ∈ v, isWs x = false)
    (hveq : '=' ∉ v) (hvbang : v.head? ≠ some '!')
    (hw : isWs w = true) :
    ({ type := "include", key := k, value := v } : Filter) ∈
      matchTags me (a ++ ((k ++ ':' :: v) ++ w :: b)) := by
  obtain ⟨hkne, _⟩ := lowerKey_chars k hk
  cases k with
  | nil => exact absurd rfl hkne
  | cons c ks =>
    have hk2 := hk
    simp only [lowerKeyShape, Bool.and_eq_true, List.all_eq_true] at hk2
    have hc : isLetter c = true := isLetter_of_lower c hk2.1
    have hks : ∀ x ∈ ks, isAlnum x = true := fun x hx => isAlnum_of_lower x (hk2.2 x hx)
    have htm : tryMatch me (((c :: ks) ++ ':' :: v) ++ w :: b) =
        some ((c :: ks) ++ ':' :: (v ++ [w])) := by
      have e1 : ((c :: ks) ++ ':' :: v) ++ w :: b =
          c :: (ks ++ ((if false then ['!', ':'] else [':']) ++ (v ++ w :: b))) := by
        simp
      have e2 : (c :: ks) ++ ':' :: (v ++ [w]) =
          c :: (ks ++ ((if false then ['!', ':'] else [':']) ++ (v ++ (w :: b).take 1))) := by
        simp
      rw [e1, e2]
      exact tryMatch_token me c ks false ':' v (w :: b) hc hks (Or.inl rfl) hv hvs
        (Or.inl ⟨w, b, rfl, hw⟩)
    have hscan := scan_token me a _ _ ha htm
    have hmem := List.mem_map_of_mem parseFilter hscan
    rw [parseFilter_include (c :: ks) v w hk hv hvs hveq hvbang hw] at hmem
    exact hmem

/-- Claim C1 counterexample: in the search string foo:a=b followed by a
space, the value contains '='; the code then splits on '=' and produces the
filter (include, foo:a, b), not (include, foo, a=b) as the claim states. -/
theorem matchTags_value_with_eq_counterexample :
    matchTags false (("foo:a=b ").toList) =
      [{ type := "include", key := ("foo:a").toList, value := ("b").toList }] ∧
    ({ type := "include", key := ("foo").toList, value := ("a=b").toList } : Filter) ∉
      matchTags false (("foo:a=b ").toList) := by
  decide

/-- Claim C1 witness at a concrete token. -/
theorem matchTags_include_token_witness :
    ({ type := "include", key := ("foo").toList, value := ("bar").toList } : Filter) ∈
      matchTags false ([] ++ ((("foo").toList ++ ':' :: ("bar").toList) ++ ' ' :: [])) :=
  matchTags_include_token false [] [] (("foo").toList) (("bar").toList) ' '
    (Or.inl rfl) (by decide) (by decide) (by decide) (by decide) (by decide) (by decide)

/-- Claim C2 (amended): for every search string containing a token
key!=value (key matching [a-z][a-z0-9]*, value non-whitespace, containing
no ':' and not beginning with '!') followed by whitespace, matchTags parses
it into a filter with type exclude, the key with the trailing '!' stripped,
and that value. -/
theorem matchTags_exclude_token (me : Bool) (a b k v : List Char) (w : Char)
    (ha : a = [] ∨ ∃ a2 w2, a = a2 ++ [w2] ∧ isWs w2 = true)
    (hk : lowerKeyShape k = true)
    (hv : v ≠ []) (hvs : ∀ x ∈ v, isWs x = false)
    (hvcolon : ':' ∉ v) (hvbang : v.head? ≠ some '!')
    (hw : isWs w = true) :
    ({ type := "exclude", key := k, value := v } : Filter) ∈
      matchTags me (a ++ ((k ++ '!' :: '=' :: v) ++ w :: b)) := by
  obtain ⟨hkne, _⟩ := lowerKey_chars k hk
  cases k with
  | nil => exact absurd rfl hkne
  | cons c ks =>
    have hk2 := hk
    simp only [lowerKeyShape, Bool.and_eq_true, List.all_eq_true] at hk2
    have hc : isLetter c = true := isLetter_of_lower c hk2.1
    have hks : ∀ x ∈ ks, isAlnum x = true := fun x hx => isAlnum_of_lower x (hk2.2 x hx)
    have htm : tryMatch me (((c :: ks) ++ '!' :: '=' :: v) ++ w :: b) =
        some (((c :: ks) ++ ['!']) ++ '=' :: (v ++ [w])) := by
      have e1 : ((c :: ks) ++ '!' :: '=' :: v) ++ w :: b =
          c :: (ks ++ ((if true then ['!', '='] else ['=']) ++ (v ++ w :: b))) := by
        simp
      have e2 : ((c :: ks) ++ ['!']) ++ '=' :: (v ++ [w]) =
          c :: (ks ++ ((if true then ['!', '='] else ['=']) ++ (v ++ (w :: b).take 1))) := by
        simp
      rw [e1, e2]
      exact tryMatch_token me c ks true '=' v (w :: b) hc hks (Or.inr rfl) hv hvs
        (Or.inl ⟨w, b, rfl, hw⟩)
    have hscan := scan_token me a _ _ ha htm
    have hmem := List.mem_map_of_mem parseFilter hscan
    rw [parseFilter_exclude (c :: ks) v w hk hv hvs hvcolon hvbang hw] at hmem
    exact hmem

/-- Claim C2 counterexample: in the search string foo!=a:b followed by a
space, the value contains ':'; the code then splits on ':' and produces the
filter (include, foo!=a, b), not (exclude, foo, a:b) as the claim states. -/
theorem matchTags_value_with_colon_counterexample :
    matchTags false (("foo!=a:b ").toList) =
      [{ type := "include", key := ("foo!=a").toList, value := ("b").toList }] ∧
    ({ type := "exclude", key := ("foo").toList, value := ("a:b").toList } : Filter) ∉
      matchTags false (("foo!=a:b ").toList) := by
  decide

/-- Claim C2 witness at a concrete token. -/
theorem matchTags_exclude_token_witness :
    ({ type := "exclude", key := ("foo").toList, value := ("bar").toList } : Filter) ∈
      matchTags false ([] ++ ((("foo").toList ++ '!' :: '=' :: ("bar").toList) ++ ' ' :: [])) :=
  matchTags_exclude_token false [] [] (("foo").toList) (("bar").toList) ' '
    (Or.inl rfl) (by decide) (by decide) (by decide) (by decide) (by decide) (by decide)

/-- Claim C3: Enter with the search bar focused invokes (the debounced)
matchTags with matchEnd true; with matchEnd true a key:value token at the
very end of the input (no trailing whitespace) is matched and its parse is
added as a filter; with matchEnd false every match carries a trailing
whitespace character, so only tokens followed by whitespace are matched. -/
theorem enter_commits_partial_matches :
    (∀ (platform : String) (v : List Char) (mk ck : Bool) (st : SearchableState),
      hasFocusState st = true →
      onKeyDown platform true v st { key := "Enter", metaKey := mk, ctrlKey := ck } =
        some (st, { matchTagsCall := some (v, true) })) ∧
    (∀ (a k v : List Char),
      (a = [] ∨ ∃ a2 w2, a = a2 ++ [w2] ∧ isWs w2 = true) →
      lowerKeyShape k = true → v ≠ [] → (∀ x ∈ v, isWs x = false) →
      ((k ++ ':' :: v) ∈ scanMatches true (a ++ (k ++ ':' :: v)) ∧
       parseFilter (k ++ ':' :: v) ∈ matchTags true (a ++ (k ++ ':' :: v)))) ∧
    (∀ (s m : List Char), m ∈ scanMatches false s →
      ∃ m2 w, m = m2 ++ [w] ∧ isWs w = true) := by
  refine ⟨?_, ?_, ?_⟩
  · have h1 : (("Enter" : String) == "f") = false := by decide
    have h2 : (("Enter" : String) == "Escape") = false := by decide
    have h3 : (("Enter" : String) == "Backspace") = false := by decide
    have h4 : (("Enter" : String) == "Delete") = false := by decide
    have h5 : (("Enter" : String) == "Enter") = true := by decide
    intro platform v mk ck st hfoc
    simp [onKeyDown, h1, h2, h3, h4, h5, hfoc]
  · intro a k v ha hk hv hvs
    obtain ⟨hkne, _⟩ := lowerKey_chars k hk
    cases k with
    | nil => exact absurd rfl hkne
    | cons c ks =>
      have hk2 := hk
      simp only [lowerKeyShape, Bool.and_eq_true, List.all_eq_true] at hk2
      have hc : isLetter c = true := isLetter_of_lower c hk2.1
      have hks : ∀ x ∈ ks, isAlnum x = true := fun x hx => isAlnum_of_lower x (hk2.2 x hx)
      have htm : tryMatch true ((c :: ks) ++ ':' :: v) = some ((c :: ks) ++ ':' :: v) := by
        have e1 : (c :: ks) ++ ':' :: v =
            c :: (ks ++ ((if false then ['!', ':'] else [':']) ++ (v ++ []))) := by
          simp
        have e2 : (c :: ks) ++ ':' :: v =
            c :: (ks ++ ((if false then ['!', ':'] else [':']) ++
              (v ++ ([] : List Char).take 1))) := by
          simp
        conv_lhs => rw [e1]
        conv_rhs => rw [e2]
        exact tryMatch_token true c ks false ':' v [] hc hks (Or.inl rfl) hv hvs
          (Or.inr ⟨rfl, rfl⟩)
      have hscan := scan_token true a _ _ ha htm
      exact ⟨hscan, List.mem_map_of_mem parseFilter hscan⟩
  · intro s m hm
    obtain ⟨s2, hs2⟩ := scanFuel_from_tryMatch false s.length s m hm
    exact (tryMatch_parts false s2 m hs2).2.2.2 rfl

/-- Claim C3 witness: Enter at a concrete focused state, and a concrete
trailing token a:b with no whitespace after it. -/
theorem enter_commits_partial_matches_witness :
    (hasFocusState
        { filters := [], focusedToken := -1, searchTerm := [], hasFocus := true } = true ∧
      onKeyDown "darwin" true (("a:b").toList)
        { filters := [], focusedToken := -1, searchTerm := [], hasFocus := true }
        { key := "Enter" } =
        some ({ filters := [], focusedToken := -1, searchTerm := [], hasFocus := true },
              { matchTagsCall := some ((("a:b").toList), true) })) ∧
    parseFilter (("a").toList ++ ':' :: ("b").toList) ∈
      matchTags true ([] ++ (("a").toList ++ ':' :: ("b").toList)) :=
  ⟨⟨by decide,
    enter_commits_partial_matches.1 "darwin" (("a:b").toList) false false
      { filters := [], focusedToken := -1, searchTerm := [], hasFocus := true } (by decide)⟩,
    (enter_commits_partial_matches.2.1 [] (("a").toList) (("b").toList)
      (Or.inl rfl) (by decide) (by decide) (by decide)).2⟩

/-- Claim C4: search state is persisted to local storage keyed by table
identity: the storage key is SEARCHABLE_STORAGE_KEY_ followed by the
tableKey prop when it is set (truthy), otherwise by TABLE_COLUMNS_ plus the
column keys joined with an underscore and upper-cased when columns are
given; when neither is available, the state is not persisted and no write
occurs. -/
theorem persist_key_by_table_identity (tableKey : List Char)
    (columns : Option (List (List Char))) (changed : Bool) (st : SearchableState) :
    (tableKey ≠ [] →
      getPersistKey tableKey columns = ("SEARCHABLE_STORAGE_KEY_").toList ++ tableKey) ∧
    (tableKey ≠ [] → changed = true →
      componentDidUpdatePersist tableKey columns changed st =
        some (("SEARCHABLE_STORAGE_KEY_").toList ++ tableKey, st.searchTerm, st.filters)) ∧
    (∀ cols, tableKey = [] → columns = some cols →
      getPersistKey tableKey columns =
        ("SEARCHABLE_STORAGE_KEY_").toList ++ ("TABLE_COLUMNS_").toList ++
          jsToUpper (List.intercalate ("_").toList cols)) ∧
    (tableKey = [] → columns = none →
      componentDidUpdatePersist tableKey columns changed st = none) := by
  refine ⟨?_, ?_, ?_, ?_⟩
  · intro h
    have hb : (tableKey != []) = true := by simpa [bne_iff_ne] using h
    simp [getPersistKey, getTableKey, hb]
  · intro h hc
    have hb : (tableKey != []) = true := by simpa [bne_iff_ne] using h
    simp [componentDidUpdatePersist, getPersistKey, getTableKey, hb, hc]
  · intro cols h hc
    subst h
    subst hc
    simp [getPersistKey, getTableKey]
  · intro h hc
    subst h
    subst hc
    simp [componentDidUpdatePersist, getTableKey]

/-- Claim C4 witness at concrete inputs. -/
theorem persist_key_by_table_identity_witness :
    (("T").toList ≠ [] ∧
      getPersistKey (("T").toList) none = ("SEARCHABLE_STORAGE_KEY_T").toList) ∧
    (([] : List Char) = [] ∧ (none : Option (List (List Char))) = none ∧
      componentDidUpdatePersist [] none true
        { filters := [], focusedToken := -1, searchTerm := [], hasFocus := false } = none) := by
  constructor
  · refine ⟨by decide, ?_⟩
    have h := (persist_key_by_table_identity (("T").toList) none true
      { filters := [], focusedToken := -1, searchTerm := [], hasFocus := false }).1
      (by decide)
    rw [h]
    decide
  · refine ⟨rfl, rfl, ?_⟩
    exact (persist_key_by_table_identity [] none true
      { filters := [], focusedToken := -1, searchTerm := [], hasFocus := false }).2.2.2
      rfl rfl

/-- Claim C5: whenever the search input is attached, an Escape keydown blurs
the input and resets the search term to the empty string, whatever the rest
of the state and platform. -/
theorem escape_clears_search (platform : String) (v : List Char)
    (st : SearchableState) (mk ck : Bool) :
    onKeyDown platform true v st { key := "Escape", metaKey := mk, ctrlKey := ck } =
      some ({ st with searchTerm := [] }, { blurInput := true }) := by
  have h1 : (("Escape" : String) == "f") = false := by decide
  have h2 : (("Escape" : String) == "Escape") = true := by decide
  simp [onKeyDown, h1, h2]

/-- Claim C7: pressing f with Cmd held on darwin, or with Ctrl held on any
other platform, prevents the event's default action and focuses the search
input; f with neither modifier does not take this branch (the handler falls
through with no effect). -/
theorem ctrl_cmd_f_focuses_search (v : List Char) (st : SearchableState) :
    (∀ ck, onKeyDown "darwin" true v st { key := "f", metaKey := true, ctrlKey := ck } =
        some (st, { preventDefault := true, focusInput := true })) ∧
    (∀ platform mk, platform ≠ "darwin" →
      onKeyDown platform true v st { key := "f", metaKey := mk, ctrlKey := true } =
        some (st, { preventDefault := true, focusInput := true })) ∧
    (∀ platform (inputRef : Bool),
      onKeyDown platform inputRef v st { key := "f", metaKey := false, ctrlKey := false } =
        some (st, {})) := by
  have hf : (("f" : String) == "f") = true := by decide
  have h2 : (("f" : String) == "Escape") = false := by decide
  have h3 : (("f" : String) == "Backspace") = false := by decide
  have h4 : (("f" : String) == "Delete") = false := by decide
  have h5 : (("f" : String) == "Enter") = false := by decide
  refine ⟨?_, ?_, ?_⟩
  · intro ck
    have hd : (("darwin" : String) == "darwin") = true := by decide
    simp [onKeyDown, ctrlOrCmd, hf, hd]
  · intro platform mk hp
    have hd : (platform == "darwin") = false := by
      simpa [beq_iff_eq] using hp
    have hd' : (platform != "darwin") = true := by
      simp [bne, hd]
    simp [onKeyDown, ctrlOrCmd, hf, hd, hd']
  · intro platform inputRef
    simp [onKeyDown, ctrlOrCmd, hf, h2, h3, h4, h5]

/-- Claim C7 witness at concrete inputs. -/
theorem ctrl_cmd_f_focuses_search_witness :
    ("linux" : String) ≠ "darwin" ∧
    onKeyDown "linux" true []
      { filters := [], focusedToken := -1, searchTerm := [], hasFocus := false }
      { key := "f", metaKey := false, ctrlKey := true } =
      some ({ filters := [], focusedToken := -1, searchTerm := [], hasFocus := false },
            { preventDefault := true, focusInput := true }) :=
  ⟨by decide,
    (ctrl_cmd_f_focuses_search []
      { filters := [], focusedToken := -1, searchTerm := [], hasFocus := false }).2.1
      "linux" false (by decide)⟩

/-- Claim C8 counterexample: with an empty filter list, no token focused,
empty search term and the input focused, a Backspace keydown reads the
persistent field of an element that is not there, and the handler faults. -/
theorem backspace_faults_on_empty_filters :
    onKeyDown "darwin" true []
      { filters := [], focusedToken := -1, searchTerm := [], hasFocus := true }
      { key := "Backspace" } = none := by decide

/-- Claim C8 (amended): the read is well-defined for every non-empty filter
list: with at least one filter present, onKeyDown never faults, for any key
and any state. -/
theorem onKeyDown_total_on_nonempty_filters (platform : String) (inputRef : Bool)
    (v : List Char) (st : SearchableState) (e : KeyEvent)
    (h : st.filters ≠ []) :
    (onKeyDown platform inputRef v st e).isSome = true := by
  unfold onKeyDown
  split
  · rfl
  · split
    · rfl
    · split
      · split
        · cases hg : st.filters.get? (st.filters.length - 1) with
          | none =>
            exfalso
            have hle := List.get?_eq_none.mp hg
            have hlen : st.filters.length ≠ 0 := by
              simpa [List.length_eq_zero] using h
            omega
          | some lastf =>
            simp only [hg]
            split
            · rfl
            · rfl
        · rfl
      · split
        · rfl
        · split
          · rfl
          · rfl

/-- Claim C8 witness at a concrete non-empty state. -/
theorem onKeyDown_total_on_nonempty_filters_witness :
    (([{ type := "include", key := [], value := [] }] : List Filter) ≠ []) ∧
    (onKeyDown "darwin" true []
      { filters := [{ type := "include", key := [], value := [] }], focusedToken := -1,
        searchTerm := [], hasFocus := true }
      { key := "Backspace" }).isSome = true :=
  ⟨by decide,
    onKeyDown_total_on_nonempty_filters "darwin" true []
      { filters := [{ type := "include", key := [], value := [] }], focusedToken := -1,
        searchTerm := [], hasFocus := true }
      { key := "Backspace" } (by decide)⟩

/-- Claim C6: with the search bar focused, Backspace with an empty search
term and no token focused moves focus to the last filter token when that
token is not persistent; Backspace or Delete with a token focused removes
exactly that token, keeps all other filters in order, and resets the
focused token to -1. -/
theorem backspace_delete_token_navigation :
    (∀ (platform : String) (v : List Char) (mk ck : Bool) (st : SearchableState)
        (fs : List Filter) (lastf : Filter),
      st.hasFocus = true → st.focusedToken = -1 → st.searchTerm = [] →
      st.filters = fs ++ [lastf] → (lastf.persistent == some true) = false →
      onKeyDown platform true v st { key := "Backspace", metaKey := mk, ctrlKey := ck } =
        some ({ st with focusedToken := (st.filters.length : Int) - 1 },
              { blurInput := true })) ∧
    (∀ platform (inputRef : Bool) v mk ck (st : SearchableState) (i : Nat),
      st.focusedToken = (i : Int) → i < st.filters.length →
      onKeyDown platform inputRef v st { key := "Backspace", metaKey := mk, ctrlKey := ck } =
        some ({ st with filters := st.filters.take i ++ st.filters.drop (i + 1),
                        focusedToken := -1 },
              { focusInput := inputRef })) ∧
    (∀ platform (inputRef : Bool) v mk ck (st : SearchableState) (i : Nat),
      st.focusedToken = (i : Int) → i < st.filters.length →
      onKeyDown platform inputRef v st { key := "Delete", metaKey := mk, ctrlKey := ck } =
        some ({ st with filters := st.filters.take i ++ st.filters.drop (i + 1),
                        focusedToken := -1 },
              { focusInput := inputRef })) := by
  have hb1 : (("Backspace" : String) == "f") = false := by decide
  have hb2 : (("Backspace" : String) == "Escape") = false := by decide
  have hb3 : (("Backspace" : String) == "Backspace") = true := by decide
  have hd1 : (("Delete" : String) == "f") = false := by decide
  have hd2 : (("Delete" : String) == "Escape") = false := by decide
  have hd3 : (("Delete" : String) == "Backspace") = false := by decide
  have hd4 : (("Delete" : String) == "Delete") = true := by decide
  refine ⟨?_, ?_, ?_⟩
  · intro platform v mk ck st fs lastf hhf hft hst hfl hp
    have hg : st.filters[st.filters.length - 1]? = some lastf := by
      rw [hfl]
      have hlen : (fs ++ [lastf]).length - 1 = fs.length := by simp
      rw [hlen]
      exact List.getElem?_concat_length fs lastf
    have hp' : ¬ lastf.persistent = some true := by
      simpa [beq_iff_eq] using hp
    simp [onKeyDown, hasFocusState, hb1, hb2, hb3, hft, hst, hg, hp', hhf]
  · intro platform inputRef v mk ck st i hft hlt
    have hne : ((i : Int) == -1) = false := by
      rw [beq_eq_false_iff_ne]
      omega
    have hne' : ((i : Int) != -1) = true := by
      simp [bne, hne]
    simp [onKeyDown, hasFocusState, hb1, hb2, hb3, hft, hne, hne', removeFilter_nat st i]
  · intro platform inputRef v mk ck st i hft hlt
    have hne' : ((i : Int) != -1) = true := by
      rw [bne_iff_ne]
      omega
    have hgt : (i : Int) > -1 := by omega
    simp [onKeyDown, hasFocusState, hd1, hd2, hd3, hd4, hft, hne', hgt, removeFilter_nat]

/-- Claim C6 witness at a concrete two-filter state. -/
theorem backspace_delete_token_navigation_witness :
    (({ filters := [{ type := "include", key := [], value := [] },
                    { type := "exclude", key := [], value := [] }],
        focusedToken := -1, searchTerm := [], hasFocus := true } :
        SearchableState).hasFocus = true) ∧
    onKeyDown "darwin" true []
      { filters := [{ type := "include", key := [], value := [] },
                    { type := "exclude", key := [], value := [] }],
        focusedToken := -1, searchTerm := [], hasFocus := true }
      { key := "Backspace" } =
      some ({ filters := [{ type := "include", key := [], value := [] },
                          { type := "exclude", key := [], value := [] }],
              focusedToken := 1, searchTerm := [], hasFocus := true },
            { blurInput := true }) ∧
    onKeyDown "darwin" true []
      { filters := [{ type := "include", key := [], value := [] },
                    { type := "exclude", key := [], value := [] }],
        focusedToken := 0, searchTerm := [], hasFocus := true }
      { key := "Delete" } =
      some ({ filters := [{ type := "exclude", key := [], value := [] }],
              focusedToken := -1, searchTerm := [], hasFocus := true },
            { focusInput := true }) := by
  refine ⟨rfl, ?_, ?_⟩
  · have h := backspace_delete_token_navigation.1 "darwin" [] false false
      { filters := [{ type := "include", key := [], value := [] },
                    { type := "exclude", key := [], value := [] }],
        focusedToken := -1, searchTerm := [], hasFocus := true }
      [{ type := "include", key := [], value := [] }]
      { type := "exclude", key := [], value := [] }
      rfl rfl rfl rfl (by decide)
    exact h
  · have h := backspace_delete_token_navigation.2.2 "darwin" true [] false false
      { filters := [{ type := "include", key := [], value := [] },
                    { type := "exclude", key := [], value := [] }],
        focusedToken := 0, searchTerm := [], hasFocus := true }
      0 rfl (by decide)
    exact h

/-- Claim C9: with pairwise distinct filter keys, addFilter keeps the
length and key sequence unchanged when a filter with the new filter's key
already exists, and otherwise prepends the new filter when it is persistent
and appends it when it is not. -/
theorem addFilter_key_uniqueness (dfs : List Filter) (st : SearchableState) (fl : Filter)
    (hdist : st.filters.Pairwise (fun f g => f.key ≠ g.key)) :
    ((∃ f ∈ st.filters, f.key = fl.key) →
      ((addFilter dfs st fl).filters.length = st.filters.length ∧
       (addFilter dfs st fl).filters.map Filter.key = st.filters.map Filter.key)) ∧
    ((¬ ∃ f ∈ st.filters, f.key = fl.key) →
      (addFilter dfs st fl).filters =
        if fl.persistent == some true then fl :: st.filters else st.filters ++ [fl]) := by
  constructor
  · intro hex
    have hne : jsFindIndex (fun f => f.key == fl.key) st.filters ≠ -1 := by
      intro hc
      rw [jsFindIndex_neg_iff] at hc
      obtain ⟨f, hf, hk⟩ := hex
      have := hc f hf
      rw [hk] at this
      simp at this
    have hge := jsFindIndex_ge (fun f => f.key == fl.key) st.filters
    have hgt : jsFindIndex (fun f => f.key == fl.key) st.filters > -1 := by omega
    unfold addFilter
    rw [if_pos hgt]
    cases hdg : dfs.get? (jsFindIndex (fun f => f.key == fl.key) st.filters).toNat with
    | none => simp [hdg]
    | some defaultFilter =>
      cases hsg : st.filters.get?
          (jsFindIndex (fun f => f.key == fl.key) st.filters).toNat with
      | none => simp [hdg, hsg]
      | some existing =>
        simp only [hdg, hsg]
        split
        · constructor
          · simp [List.length_set]
          · exact map_key_set st.filters _ existing { existing with enum := defaultFilter.enum }
              hsg rfl
        · exact ⟨rfl, rfl⟩
  · intro hnex
    have heq : jsFindIndex (fun f => f.key == fl.key) st.filters = -1 := by
      rw [jsFindIndex_neg_iff]
      intro x hx
      cases hk : (x.key == fl.key)
      · rfl
      · exact absurd ⟨x, hx, by simpa [beq_iff_eq] using hk⟩ hnex
    unfold addFilter
    rw [heq, if_neg (by omega)]
    cases hp : (fl.persistent == some true)
    · simp [hp]
    · simp [hp]

/-- Claim C9 witness at concrete inputs (existing key, and a fresh
non-persistent key). -/
theorem addFilter_key_uniqueness_witness :
    (([{ type := "include", key := ['a'], value := ['1'] }] : List Filter).Pairwise
        (fun f g => f.key ≠ g.key) ∧
      (∃ f ∈ ([{ type := "include", key := ['a'], value := ['1'] }] : List Filter),
        f.key = (['a'] : List Char)) ∧
      (addFilter []
        { filters := [{ type := "include", key := ['a'], value := ['1'] }],
          focusedToken := -1, searchTerm := [], hasFocus := false }
        { type := "include", key := ['a'], value := ['2'] }).filters.map Filter.key =
        [['a']]) ∧
    ((¬ ∃ f ∈ ([] : List Filter), f.key = (['a'] : List Char)) ∧
      (addFilter []
        { filters := [], focusedToken := -1, searchTerm := [], hasFocus := false }
        { type := "include", key := ['a'], value := ['2'] }).filters =
        if (({ type := "include", key := ['a'], value := ['2'] } :
              Filter).persistent == some true)
        then [{ type := "include", key := ['a'], value := ['2'] }]
        else [{ type := "include", key := ['a'], value := ['2'] }]) := by
  constructor
  · refine ⟨by simp, ⟨{ type := "include", key := ['a'], value := ['1'] }, by simp, rfl⟩, ?_⟩
    have h := (addFilter_key_uniqueness []
      { filters := [{ type := "include", key := ['a'], value := ['1'] }],
        focusedToken := -1, searchTerm := [], hasFocus := false }
      { type := "include", key := ['a'], value := ['2'] } (by simp)).1
      ⟨{ type := "include", key := ['a'], value := ['1'] }, by simp, rfl⟩
    rw [h.2]
    rfl
  · refine ⟨by simp, ?_⟩
    have h := (addFilter_key_uniqueness []
      { filters := [], focusedToken := -1, searchTerm := [], hasFocus := false }
      { type := "include", key := ['a'], value := ['2'] } (by simp)).2
      (by simp)
    rw [h]
    rfl

/-- Claim C10: clear resets the search term to the empty string and keeps
exactly the filters whose persistent field is true, in their original
order. -/
theorem clear_resets_and_keeps_persistent (st : SearchableState) :
    (clear st).searchTerm = [] ∧
    (clear st).filters = st.filters.filter (fun f => f.persistent == some true) ∧
    List.Sublist (clear st).filters st.filters := by
  refine ⟨rfl, ?_, ?_⟩
  · show st.filters.filter (fun f => f.persistent != none && f.persistent == some true) =
      st.filters.filter (fun f => f.persistent == some true)
    apply List.filter_congr
    intro f _
    cases hp : f.persistent with
    | none => simp
    | some b => simp
  · exact List.filter_sublist st.filters

end Searchable
